import Mathlib

/-!
Verification of the two Amazon CSV transform pipelines
(`scripts/transform_best_sellers.py` and `scripts/transform_movers_shakers.py`).

Modelling conventions:
* CSV cell values are Lean `String`s (the pipelines read with `dtype=str`,
  `keep_default_na=False`, so every raw cell is a Python `str`).
* A missing value (Python `None` / `np.nan`) is `Option.none`; floating point
  numbers are modelled as exact rationals `ℚ` (the properties at stake are
  missingness, exact zeroes and order comparisons, which the idealized
  rational semantics shares with IEEE doubles on these computations, except
  where noted for 0/0, which is modelled as `none` = NaN).
* Regular-expression operations are embedded as explicit left-to-right
  scanners with the same leftmost / alternation-order semantics as Python's
  `re` module.  Category and price strings are assumed to contain no newline
  characters (CSV fields are single-line), so `.` matches every character.
-/

/-! ### Generic character-list helpers -/

/-- Decimal value of a list of digit characters, most significant first
(the value `int()`/`float()` assigns to a digit string). -/
def digitsToNat (l : List Char) : ℕ :=
  l.foldl (fun a c => 10 * a + (c.toNat - 48)) 0

/-- Test `startsWithL pat l` : `pat` is an initial segment of `l`
(Python `str.startswith`, used to model anchored regex matches). -/
def startsWithL : List Char → List Char → Bool
  | [], _ => true
  | _ :: _, [] => false
  | a :: as, b :: bs => a == b && startsWithL as bs

/-- Test `occursInL pat l` : `pat` occurs contiguously somewhere in `l`
(Python `in` on strings / an unanchored regex literal match). -/
def occursInL (pat : List Char) : List Char → Bool
  | [] => startsWithL pat []
  | c :: rest => startsWithL pat (c :: rest) || occursInL pat rest

/-- Python `str.strip()` on a character list. -/
def trimChars (l : List Char) : List Char :=
  ((l.dropWhile Char.isWhitespace).reverse.dropWhile Char.isWhitespace).reverse

/-- Python `str.lower()` on an ASCII character (the headers and price
strings the pipelines lowercase are ASCII). -/
def lowerChar (c : Char) : Char :=
  if 'A' ≤ c ∧ c ≤ 'Z' then Char.ofNat (c.toNat + 32) else c

/-- Python `str.lower()` on a character list. -/
def lowerChars (l : List Char) : List Char := l.map lowerChar

/-! ### Python numeric-literal conversion

`pyFloatOfChars` embeds `float(s)` as used in `transform_best_sellers.parse_price`:
at that call site the string has already been filtered to the characters
`0-9 . -` (commas are removed by both branches of the heuristic), so the
reachable grammar is an optional sign followed by digits with at most one
decimal point and at least one digit (exponents, `inf`, `nan`, underscores
are unreachable).  `pyIntOfChars` embeds `int(s)` as used in
`transform_best_sellers.parse_int`: there the argument may hold arbitrary
characters minus commas and surrounding whitespace, so sign and
underscore-separators between digits are honoured. -/

/-- Digit run with optional single underscores between digits (no leading
underscore is accepted here; the caller rejects a leading underscore). -/
def underscoreDigits : List Char → Bool
  | [] => true
  | '_' :: c :: rest => c.isDigit && underscoreDigits rest
  | c :: rest => c.isDigit && underscoreDigits rest

/-- Valid `int()` digit part: nonempty, starts with a digit, single
underscores only between digits. -/
def pyIntDigitsOk : List Char → Bool
  | [] => false
  | '_' :: _ => false
  | l => underscoreDigits l

/-- Value of a valid `int()` digit part (underscores discarded). -/
def pyIntDigitsVal (l : List Char) : ℤ :=
  (digitsToNat (l.filter (fun c => c ≠ '_')) : ℤ)

/-- Python `int(s)` on an already-stripped string. -/
def pyIntOfChars (l : List Char) : Option ℤ :=
  match l with
  | '-' :: rest => if pyIntDigitsOk rest then some (-(pyIntDigitsVal rest)) else none
  | '+' :: rest => if pyIntDigitsOk rest then some (pyIntDigitsVal rest) else none
  | rest => if pyIntDigitsOk rest then some (pyIntDigitsVal rest) else none

/-- Python `float(s)` restricted to strings over `0-9 . -` (see above):
optional sign, then digits with at most one `.` and at least one digit. -/
def pyFloatOfChars (l : List Char) : Option ℚ :=
  let core : List Char → Option ℚ := fun t =>
    let ip := t.takeWhile Char.isDigit
    let r1 := t.dropWhile Char.isDigit
    match r1 with
    | [] => if ip = [] then none else some ((digitsToNat ip : ℚ))
    | '.' :: r2 =>
      let fp := r2.takeWhile Char.isDigit
      let r3 := r2.dropWhile Char.isDigit
      if r3 = [] ∧ ¬(ip = [] ∧ fp = []) then
        some ((digitsToNat ip : ℚ) + (digitsToNat fp : ℚ) / (10 : ℚ) ^ fp.length)
      else none
    | _ => none
  match l with
  | '-' :: rest => (core rest).map (fun x => -x)
  | '+' :: rest => core rest
  | _ => core l

/-! ### Regex pieces shared by the price parsers -/

/-- One pass of `re.sub(r"\(.*?\)", "", s)`: non-greedy, so each `(` is
matched with the first following `)`; a `(` with no later `)` is kept.
Fuelled by the input length: every step consumes at least one character. -/
def removeParensAux : ℕ → List Char → List Char
  | 0, l => l
  | _ + 1, [] => []
  | fuel + 1, c :: rest =>
    if c = '(' then
      let rest2 := rest.dropWhile (fun d => d ≠ ')')
      -- if `rest2` is nonempty its head is the matching `)`;
      -- the whole non-greedy match `( … )` is removed and scanning resumes
      if rest2.isEmpty then '(' :: removeParensAux fuel rest
      else removeParensAux fuel rest2.tail
    else c :: removeParensAux fuel rest

def removeParens (l : List Char) : List Char := removeParensAux l.length l

/-- The noise-word list of `transform_movers_shakers.parse_price`, in the
regex's alternation order. -/
def noiseWords : List (List Char) :=
  ["converted".toList, "approx".toList, "usd".toList, "us$".toList,
   "from".toList, "price".toList, "now".toList, "only".toList]

/-- First alternative of `ws` matching at the head of `l`, returning the
remainder after the match. -/
def matchNoise : List (List Char) → List Char → Option (List Char)
  | [], _ => none
  | w :: ws, l => if startsWithL w l then some (l.drop w.length) else matchNoise ws l

/-- Embeds `re.sub(r"(converted|approx|usd|us\$|from|price|now|only)", "", s)`:
left-to-right scan, first alternative wins, scanning resumes after each
removed match.  Fuelled by the input length: every step consumes at least
one character (all alternatives are nonempty), so the fuel never runs out. -/
def removeNoiseAux : ℕ → List Char → List Char
  | 0, l => l
  | _ + 1, [] => []
  | fuel + 1, c :: rest =>
    match matchNoise noiseWords (c :: rest) with
    | some after => removeNoiseAux fuel after
    | none => c :: removeNoiseAux fuel rest

def removeNoise (l : List Char) : List Char := removeNoiseAux l.length l

/-- Tokens of `re.findall(r"\d+\.\d+|\d+", s)` in order: at each digit the
first alternative (greedy digits, a dot, greedy digits) is preferred, else a
plain digit run.  Fuelled by the input length; every step consumes at least
one character. -/
def numTokensAux : ℕ → List Char → List (List Char)
  | 0, _ => []
  | _ + 1, [] => []
  | fuel + 1, c :: rest =>
    if c.isDigit then
      let d1 := (c :: rest).takeWhile Char.isDigit
      let r1 := (c :: rest).dropWhile Char.isDigit
      match r1 with
      | '.' :: d :: r2 =>
        if d.isDigit then
          let d2 := (d :: r2).takeWhile Char.isDigit
          let r3 := (d :: r2).dropWhile Char.isDigit
          (d1 ++ '.' :: d2) :: numTokensAux fuel r3
        else d1 :: numTokensAux fuel r1
      | _ => d1 :: numTokensAux fuel r1
    else numTokensAux fuel rest

def numTokens (l : List Char) : List (List Char) := numTokensAux l.length l

/-- Exact rational value of a `\d+\.\d+|\d+` token (`float` on the token). -/
def numTokenVal (t : List Char) : ℚ :=
  let ip := t.takeWhile Char.isDigit
  let rest := t.dropWhile Char.isDigit
  match rest with
  | '.' :: fp => (digitsToNat ip : ℚ) + (digitsToNat fp : ℚ) / (10 : ℚ) ^ fp.length
  | _ => (digitsToNat ip : ℚ)

/-! ### Field parsers (`parse_price`, `parse_int`) of the two pipelines -/

/-- Embeds `transform_best_sellers.parse_price` (lines 36-54): guard the NA-like
strings, strip parentheticals, keep only `0-9 . , -`, remove commas by the
two-branch heuristic (both branches strip all commas), then convert the
whole remaining string with `float`. -/
def parse_price_bs (p : String) : Option ℚ :=
  if p = "" ∨ lowerChars p.toList = "nan".toList ∨ lowerChars p.toList = "n/a".toList ∨
      lowerChars p.toList = "none".toList then none
  else
    let s1 := removeParens p.toList
    let s2 := s1.filter (fun c => c.isDigit || c = '.' || c = ',' || c = '-')
    -- `.strip()` after the filter is a no-op: no whitespace survives the filter
    let s3 :=
      if s2.contains ',' && s2.contains '.' then s2.filter (fun c => c ≠ ',')
      else if s2.contains ',' && !(s2.contains '.') then s2.filter (fun c => c ≠ ',')
      else s2
    pyFloatOfChars s3

/-- Embeds `transform_movers_shakers.parse_price` (lines 34-56): guard blank input,
lowercase+strip, strip parentheticals, remove the noise words, keep only
`0-9 . , -`, remove all commas, take the last `\d+\.\d+|\d+` token.
`float` on such a token never fails, so the final `try` is exact. -/
def parse_price_ms (p : String) : Option ℚ :=
  if trimChars p.toList = [] then none
  else
    let s0 := trimChars (lowerChars p.toList)
    let s1 := removeParens s0
    let s2 := removeNoise s1
    let s3 := s2.filter (fun c => c.isDigit || c = '.' || c = ',' || c = '-')
    let s4 := s3.filter (fun c => c ≠ ',')
    match (numTokens s4).getLast? with
    | none => none
    | some t => some (numTokenVal t)

/-- Embeds `transform_best_sellers.parse_int` (lines 66-72):
`int(str(s).replace(",", "").strip())`, any exception giving NaN.
Only commas and surrounding whitespace are removed before `int`. -/
def parse_int_bs (s : String) : Option ℤ :=
  if s = "" then none
  else pyIntOfChars (trimChars (s.toList.filter (fun c => c ≠ ',')))

/-- Embeds `transform_movers_shakers.parse_int` (lines 66-72):
`int(re.sub(r"[^0-9]", "", s))`, i.e. keep only the digits;
`int("")` raises and is caught, giving NaN. -/
def parse_int_ms (s : String) : Option ℤ :=
  if trimChars s.toList = [] then none
  else
    let ds := s.toList.filter Char.isDigit
    if ds = [] then none else some ((digitsToNat ds : ℤ))

/-! ### Category decomposer (`parse_category_levels`) -/

/-- The three fields returned by `parse_category_levels`. -/
structure CatLevels where
  category_full : Option String
  cat_level_1 : Option String
  cat_level_2 : Option String
deriving DecidableEq

/-- Embeds `re.search(r"in\s+(.*)", s, flags=IGNORECASE)`: leftmost position where
`in`/`In`/`iN`/`IN` is followed by at least one whitespace character; the
capture is the remainder after the greedy `\s+`. -/
def afterInMarker : List Char → Option (List Char)
  | c1 :: c2 :: c3 :: rest =>
    if (c1 = 'i' ∨ c1 = 'I') ∧ (c2 = 'n' ∨ c2 = 'N') ∧ c3.isWhitespace = true then
      some ((c3 :: rest).dropWhile Char.isWhitespace)
    else afterInMarker (c2 :: c3 :: rest)
  | _ => none

/-- Single-character delimiters of the split character class `[>/›»\|,/]`. -/
def isDelimChar (c : Char) : Bool :=
  c = '>' || c = '/' || c = '›' || c = '»' || c = '|' || c = ','

/-- Embeds `re.split(r"[>/›»\|,/]| - | & ", s)`: the character class is tried
first at each position, then the three-character alternatives; none of the
class characters is a space, so the alternatives never overlap. -/
def splitCat : List Char → List (List Char)
  | [] => [[]]
  | ' ' :: '-' :: ' ' :: rest => [] :: splitCat rest
  | ' ' :: '&' :: ' ' :: rest => [] :: splitCat rest
  | c :: rest =>
    if isDelimChar c then [] :: splitCat rest
    else
      match splitCat rest with
      | [] => [[c]]            -- unreachable: `splitCat` never returns `[]`
      | s :: ss => (c :: s) :: ss

/-- Embeds `transform_best_sellers.parse_category_levels` (lines 75-91): only a
non-`str` input is guarded; `category_full` is always a string (possibly
empty), the parts keep only segments that are nonempty after stripping. -/
def parse_category_levels_bs (cat : Option String) : CatLevels :=
  match cat with
  | none => ⟨none, none, none⟩
  | some s =>
    let catFull : List Char :=
      match afterInMarker s.toList with
      | some r => trimChars r
      | none => trimChars s.toList
    -- `[p.strip() for p in parts if p and p.strip()]` keeps exactly the
    -- segments whose stripped form is nonempty
    let parts := ((splitCat catFull).map trimChars).filter (fun p => p ≠ [])
    ⟨some (String.mk catFull), (parts[0]?).map String.mk, (parts[1]?).map String.mk⟩

/-- Embeds `transform_movers_shakers.parse_category_levels` (lines 84-95): non-`str`
or blank input is guarded; the parts filter `if p` drops only segments that
are empty before stripping, so a whitespace-only segment survives as `""`. -/
def parse_category_levels_ms (cat : Option String) : CatLevels :=
  match cat with
  | none => ⟨none, none, none⟩
  | some s =>
    if trimChars s.toList = [] then ⟨none, none, none⟩
    else
      let catFull : List Char :=
        match afterInMarker s.toList with
        | some r => trimChars r
        | none => trimChars s.toList
      let parts := ((splitCat catFull).filter (fun p => p ≠ [])).map trimChars
      ⟨some (String.mk catFull), (parts[0]?).map String.mk, (parts[1]?).map String.mk⟩

/-! ### Identifier extractor (`extract_asin`) -/

/-- The regex character class `[A-Z0-9]`. -/
def isUpperAlnum (c : Char) : Bool := c.isUpper || c.isDigit

/-- Capture `takeClass cls n l`: the first `n` characters of `l` when there are at
least `n` and they all satisfy `cls` (the `{n}` quantifier on a class). -/
def takeClass (cls : Char → Bool) : ℕ → List Char → Option (List Char)
  | 0, _ => some []
  | _ + 1, [] => none
  | n + 1, c :: rest =>
    if cls c then (takeClass cls n rest).map (fun r => c :: r) else none

/-- Embeds `re.search(lit + "([cls]{n})", s)`: scan left to right; at each position
the literal must match there, followed by `n` class characters; the capture
of the leftmost successful position is returned. -/
def reSearchCap (lit : List Char) (cls : Char → Bool) (n : ℕ) : List Char → Option (List Char)
  | [] => none
  | c :: rest =>
    if startsWithL lit (c :: rest) then
      match takeClass cls n ((c :: rest).drop lit.length) with
      | some r => some r
      | none => reSearchCap lit cls n rest
    else reSearchCap lit cls n rest

/-- Embeds `extract_asin` (best-sellers lines 24-33; the movers-shakers version,
lines 24-31, loops over the same two patterns in the same order and is
semantically identical): try `/dp/([A-Z0-9]{10})` on the whole string, then
`/gp/product/([A-Z0-9]{10})`.  The input is always a `str` in the pipeline
(`dtype=str`), so the `isinstance` guard is not modelled. -/
def extract_asin (link : String) : Option String :=
  match reSearchCap "/dp/".toList isUpperAlnum 10 link.toList with
  | some r => some (String.mk r)
  | none => (reSearchCap "/gp/product/".toList isUpperAlnum 10 link.toList).map String.mk

/-! ### Groupwise statistics

The pipelines run these per `cat_level_1` group (`groupby` with
`dropna=False`, so rows with a missing key form their own group and the
groups partition the rows).  Groups never interact, so each statistic is
modelled as a function of the list of the group's values, in row order. -/

/-- Values present (non-NaN) in a column fragment. -/
def presentQ (l : List (Option ℚ)) : List ℚ := l.filterMap id

/-- Embeds `Series.min` over the present values (callers guard nonemptiness). -/
def minQ : List ℚ → ℚ
  | [] => 0
  | x :: xs => xs.foldl min x

/-- Embeds `Series.max` over the present values (callers guard nonemptiness). -/
def maxQ : List ℚ → ℚ
  | [] => 0
  | x :: xs => xs.foldl max x

/-- Best-sellers `norm_review_density` per group (lines 169-179): groups
whose densities are all missing are skipped so they keep the initial NaN;
zero-spread groups get 0.0 on every row; otherwise min-max over the present
values, NaN rows staying NaN. -/
def norm_review_density_bs (densities : List (Option ℚ)) : List (Option ℚ) :=
  let vals := presentQ densities
  if vals = [] then densities.map (fun _ => none)
  else
    let mn := minQ vals
    let mx := maxQ vals
    if mn = mx then densities.map (fun _ => some 0)
    else densities.map (Option.map (fun x => (x - mn) / (mx - mn)))

/-- Movers-shakers `norm_review_density` per group (lines 198-207): groups
with fewer than two present densities get 0.0 on every row; otherwise the
code divides by `mx - mn` unconditionally.  When `mn = mx` every present
density equals `mn` (it is in `vals`), so the float computation is
`0.0 / 0.0 = NaN` on present rows and `NaN` on missing rows: the whole
group becomes missing, modelled by the `none` branch. -/
def norm_review_density_ms (densities : List (Option ℚ)) : List (Option ℚ) :=
  let vals := presentQ densities
  if vals.length < 2 then densities.map (fun _ => some 0)
  else
    let mn := minQ vals
    let mx := maxQ vals
    if mn = mx then densities.map (fun _ => none)
    else densities.map (Option.map (fun x => (x - mn) / (mx - mn)))

/-- Ascending insertion sort (the order `Series.quantile` sorts by). -/
def insertAsc (x : ℚ) : List ℚ → List ℚ
  | [] => [x]
  | y :: ys => if x ≤ y then x :: y :: ys else y :: insertAsc x ys

def sortAsc (l : List ℚ) : List ℚ := l.foldr insertAsc []

/-- Embeds `Series.quantile(q)` with the default linear interpolation, over the
present values `l` (pandas drops NaN before computing): with `s` the sorted
values and `h = (n-1)·q`, the result is `s⌊h⌋ + (h-⌊h⌋)·(s⌊h⌋₊₁ - s⌊h⌋)`.
Callers guard `l ≠ []`. -/
def quantileLin (l : List ℚ) (q : ℚ) : ℚ :=
  let s := sortAsc l
  let n := s.length
  let h : ℚ := ((n : ℚ) - 1) * q
  let i : ℕ := h.floor.toNat
  let g : ℚ := h - (i : ℚ)
  let lo := s.getD i 0
  let hi := s.getD (i + 1) lo
  lo + g * (hi - lo)

/-- The classifier inside `price_segment_by_category.seg` (both variants,
best-sellers lines 101-109): NaN is "unknown", `x ≤ q1` Low, `x ≤ q2` Mid,
else High. -/
def segClassify (q1 q2 : ℚ) : Option ℚ → String
  | none => "unknown"
  | some v => if v ≤ q1 then "Low" else if v ≤ q2 then "Mid" else "High"

/-- Embeds `price_segment_by_category` per group (best-sellers lines 94-117,
movers-shakers lines 98-119): if every price in the group is missing, every
row is "unknown"; otherwise classify against the group's 25th and 75th
percentiles. -/
def segPriceGroup (prices : List (Option ℚ)) : List String :=
  if presentQ prices = [] then prices.map (fun _ => "unknown")
  else
    let q1 := quantileLin (presentQ prices) (1 / 4)
    let q2 := quantileLin (presentQ prices) (3 / 4)
    prices.map (segClassify q1 q2)

/-- Modelled from the spec's words (§4.4 price segmentation), for the
refinement comparison with `segPriceGroup`: a row is "unknown" iff its own
price is missing or the group has no present price; otherwise Low iff at or
below the 25th percentile, Mid iff at or below the 75th, else High. -/
def segRowSpec (prices : List (Option ℚ)) : Option ℚ → String
  | none => "unknown"
  | some v =>
    if presentQ prices = [] then "unknown"
    else if v ≤ quantileLin (presentQ prices) (1 / 4) then "Low"
    else if v ≤ quantileLin (presentQ prices) (3 / 4) then "Mid"
    else "High"

/-! ### Movers-shakers rank-delta features (lines 168-187) -/

/-- Embeds `sales_rank_change`: `was - now` when both present, else NaN. -/
def sales_rank_change : Option ℚ → Option ℚ → Option ℚ
  | some w, some n => some (w - n)
  | _, _ => none

/-- Embeds `sales_rank_change_abs = sales_rank_change.abs()`: NaN propagates. -/
def sales_rank_change_abs (c : Option ℚ) : Option ℚ := c.map (fun x => |x|)

/-- Embeds `direction` (lines 178-185): None on NaN, "up" on positive, "down" on
negative, "no_change" otherwise. -/
def move_direction : Option ℚ → Option String
  | none => none
  | some x => if 0 < x then some "up" else if x < 0 then some "down" else some "no_change"

/-! ### Orchestrator: column mapping and column-structure model (best-sellers)

Claims about absent or doubly-matched input columns are decided purely by
the column structure of the frame, not by cell values: `DataFrame.get`
returns the scalar default (or `None`) when the name is absent — and a
scalar has no `.apply`, raising `AttributeError` — and returns a two-column
`DataFrame` when the renamed name is duplicated, on which `.apply` hands
each column `Series` to the scalar parser.  For every parser of the
best-sellers transform that path raises: `parse_price` and `parse_rating`
evaluate `pd.isna(series)` in a boolean context (`ValueError`), `parse_int`
and `extract_asin` return one scalar per column, producing a series indexed
by the duplicated column labels whose assignment back into the frame
reindexes a duplicate axis (`ValueError`).  The model therefore tracks the
ordered list of column names and the error class of each step. -/

/-- Case-insensitive substring test on strings. -/
def containsSub (pat s : String) : Bool := occursInL pat.toList s.toList

/-- The best-sellers header rules (lines 122-141), applied to an
already-stripped header: first matching rule renames, else unchanged. -/
def renameBS (c : String) : String :=
  let lc := String.mk (lowerChars c.toList)
  if containsSub "rank" lc then "rank"
  else if lc = "page" then "page"
  else if containsSub "category" lc then "category"
  else if containsSub "title" lc then "title"
  else if containsSub "link" lc then "link"
  else if containsSub "url" lc then "link"
  else if containsSub "rating" lc then "rating_raw"
  else if containsSub "review" lc then "review_count_raw"
  else if containsSub "price" lc then "price_raw"
  else c

/-- Occurrences of a column name in the frame. -/
def countCol (cols : List String) (n : String) : ℕ :=
  (cols.filter (fun c => c = n)).length

/-- Column-set effect of `df[dst] = …`: a new column is appended, an
existing one is overwritten in place. -/
def addCol (cols : List String) (n : String) : List String :=
  if n ∈ cols then cols else cols ++ [n]

/-- Column-set effect of `df[dst] = df.get(src, scalar).apply(parser)`:
exactly one `src` column parses fine; zero raises `AttributeError` (the
scalar default has no `.apply`); two or more raise as described above. -/
def getApplyStep (cols : List String) (src dst : String) : Except String (List String) :=
  match countCol cols src with
  | 0 => .error "AttributeError"
  | 1 => .ok (addCol cols dst)
  | _ => .error "ValueError"

/-- The fixed output projection list of the best-sellers transform
(lines 183-201). -/
def bsKeep : List String :=
  ["rank", "page", "category", "category_full", "cat_level_1", "cat_level_2",
   "title", "asin", "link", "rating", "review_count", "price_raw",
   "price_norm", "price_segment", "review_density", "norm_review_density",
   "scraped_at"]

/-- Column-structure model of `transform_best_sellers.transform`
(lines 120-203): strip and rename headers, run the parser steps in program
order, attach the category expansion (`pd.concat` appends its three columns
unconditionally), the constant `scraped_at`, the two derived columns and
the segment column (the groupby steps require a unique `cat_level_1`), and
finally project onto the `bsKeep` columns that exist. -/
def bsTransformCols (headers : List String) : Except String (List String) := do
  let cols := headers.map (fun h => renameBS (String.mk (trimChars h.toList)))
  let cols ← getApplyStep cols "rank" "rank"
  let cols ← getApplyStep cols "link" "asin"
  let cols ← getApplyStep cols "price_raw" "price_norm"
  let cols ← getApplyStep cols "rating_raw" "rating"
  let cols ← getApplyStep cols "review_count_raw" "review_count"
  let cols ←
    match countCol cols "category" with
    | 0 => .error "AttributeError"
    | 1 => .ok (cols ++ ["category_full", "cat_level_1", "cat_level_2"])
    | _ => .error "InvalidIndexError"
  let cols := addCol cols "scraped_at"
  let cols := addCol cols "review_density"
  let cols ←
    if countCol cols "cat_level_1" = 1 then .ok (addCol cols "norm_review_density")
    else .error "ValueError"
  let cols ←
    if countCol cols "cat_level_1" = 1 then .ok (addCol cols "price_segment")
    else .error "ValueError"
  return bsKeep.filter (fun c => c ∈ cols)

/-! ### Helper lemmas -/

theorem foldl_min_le_init (l : List ℚ) (a : ℚ) : l.foldl min a ≤ a := by
  induction l generalizing a with
  | nil => exact le_refl a
  | cons x xs ih => exact le_trans (ih (min a x)) (min_le_left a x)

theorem foldl_min_le_mem (l : List ℚ) (a : ℚ) :
    ∀ x ∈ l, l.foldl min a ≤ x := by
  induction l generalizing a with
  | nil => intro x hx; cases hx
  | cons y ys ih =>
    intro x hx
    rcases List.mem_cons.mp hx with h | h
    · subst h
      exact le_trans (foldl_min_le_init ys (min a x)) (min_le_right a x)
    · exact ih (min a y) x h

theorem le_foldl_max_init (l : List ℚ) (a : ℚ) : a ≤ l.foldl max a := by
  induction l generalizing a with
  | nil => exact le_refl a
  | cons x xs ih => exact le_trans (le_max_left a x) (ih (max a x))

theorem le_foldl_max_mem (l : List ℚ) (a : ℚ) :
    ∀ x ∈ l, x ≤ l.foldl max a := by
  induction l generalizing a with
  | nil => intro x hx; cases hx
  | cons y ys ih =>
    intro x hx
    rcases List.mem_cons.mp hx with h | h
    · subst h
      exact le_trans (le_max_right a x) (le_foldl_max_init ys (max a x))
    · exact ih (max a y) x h

theorem minQ_le_mem (l : List ℚ) : ∀ x ∈ l, minQ l ≤ x := by
  cases l with
  | nil => intro x hx; cases hx
  | cons y ys =>
    intro x hx
    rcases List.mem_cons.mp hx with h | h
    · subst h; exact foldl_min_le_init ys x
    · exact foldl_min_le_mem ys y x h

theorem le_maxQ_mem (l : List ℚ) : ∀ x ∈ l, x ≤ maxQ l := by
  cases l with
  | nil => intro x hx; cases hx
  | cons y ys =>
    intro x hx
    rcases List.mem_cons.mp hx with h | h
    · subst h; exact le_foldl_max_init ys x
    · exact le_foldl_max_mem ys y x h

theorem filterMap_id_map_optionMap (f : ℚ → ℚ) (d : List (Option ℚ)) :
    (d.map (Option.map f)).filterMap id = (d.filterMap id).map f := by
  induction d with
  | nil => rfl
  | cons o rest ih => cases o <;> simp [ih]

theorem normval_bounds (vals : List ℚ) (x : ℚ) (hx : x ∈ vals)
    (hne : minQ vals ≠ maxQ vals) :
    0 ≤ (x - minQ vals) / (maxQ vals - minQ vals) ∧
      (x - minQ vals) / (maxQ vals - minQ vals) ≤ 1 := by
  have h1 : minQ vals ≤ x := minQ_le_mem vals x hx
  have h2 : x ≤ maxQ vals := le_maxQ_mem vals x hx
  have hpos : 0 < maxQ vals - minQ vals := by
    rcases lt_or_eq_of_le (le_trans h1 h2) with h | h
    · linarith
    · exact absurd h hne
  constructor
  · apply div_nonneg <;> linarith
  · rw [div_le_one hpos]; linarith

theorem norm_bs_range (d : List (Option ℚ)) :
    ∀ y ∈ (norm_review_density_bs d).filterMap id, 0 ≤ y ∧ y ≤ 1 := by
  intro y hy
  simp only [norm_review_density_bs] at hy
  by_cases h0 : presentQ d = []
  · rw [if_pos h0] at hy
    rcases List.mem_filterMap.mp hy with ⟨o, ho, hoy⟩
    rcases List.mem_map.mp ho with ⟨a, _, hao⟩
    rw [← hao] at hoy
    simp at hoy
  · by_cases heq : minQ (presentQ d) = maxQ (presentQ d)
    · rw [if_neg h0, if_pos heq] at hy
      rcases List.mem_filterMap.mp hy with ⟨o, ho, hoy⟩
      rcases List.mem_map.mp ho with ⟨a, _, hao⟩
      rw [← hao] at hoy
      have hy0 : y = 0 := by simpa using hoy.symm
      subst hy0; constructor <;> norm_num
    · rw [if_neg h0, if_neg heq, filterMap_id_map_optionMap] at hy
      rcases List.mem_map.mp hy with ⟨x, hx, hxy⟩
      subst hxy
      exact normval_bounds (presentQ d) x hx heq

theorem norm_ms_range (d : List (Option ℚ)) :
    ∀ y ∈ (norm_review_density_ms d).filterMap id, 0 ≤ y ∧ y ≤ 1 := by
  intro y hy
  simp only [norm_review_density_ms] at hy
  by_cases h0 : (presentQ d).length < 2
  · rw [if_pos h0] at hy
    rcases List.mem_filterMap.mp hy with ⟨o, ho, hoy⟩
    rcases List.mem_map.mp ho with ⟨a, _, hao⟩
    rw [← hao] at hoy
    have hy0 : y = 0 := by simpa using hoy.symm
    subst hy0; constructor <;> norm_num
  · by_cases heq : minQ (presentQ d) = maxQ (presentQ d)
    · rw [if_neg h0, if_pos heq] at hy
      rcases List.mem_filterMap.mp hy with ⟨o, ho, hoy⟩
      rcases List.mem_map.mp ho with ⟨a, _, hao⟩
      rw [← hao] at hoy
      simp at hoy
    · rw [if_neg h0, if_neg heq, filterMap_id_map_optionMap] at hy
      rcases List.mem_map.mp hy with ⟨x, hx, hxy⟩
      subst hxy
      exact normval_bounds (presentQ d) x hx heq

/-! ### Claims C1 and C10: review-density normalization -/

/-- Claim C1, counterexample.  The claim states that `norm_review_density`
is exactly 0.0 on a zero-spread group and never missing when the row's own
`review_density` is present, and that the min-max computation never divides
by zero.  In the movers-shakers variant a group of two equal present
densities reaches `(x - mn) / (mx - mn)` with `mx = mn`, a 0/0 division, so
both rows — both with present densities — end up missing, not 0.0.  In the
best-sellers variant a group whose single density is missing (fewer than
two present values) is skipped and stays missing instead of 0.0. -/
theorem claim_C1_counterexample :
    norm_review_density_ms [some 1, some 1] = [none, none] ∧
    norm_review_density_ms [some 1, some 1] ≠ [some 0, some 0] ∧
    norm_review_density_bs [none] = [none] := by
  refine ⟨by decide, by decide, by decide⟩

/-- Claim C1, amended: all assigned `norm_review_density` values lie in
[0, 1] in both variants.  Best-sellers: a group with no present density
stays missing on every row; a nonempty zero-spread group is 0.0 on every
row; otherwise each row is min-max normalized with missingness preserved.
Movers-shakers: a group with fewer than two present densities is 0.0 on
every row; a zero-spread group with at least two present densities hits the
0/0 division and every row becomes missing; otherwise min-max as above. -/
theorem claim_C1_amended (d : List (Option ℚ)) :
    (∀ y ∈ (norm_review_density_bs d).filterMap id, 0 ≤ y ∧ y ≤ 1) ∧
    (∀ y ∈ (norm_review_density_ms d).filterMap id, 0 ≤ y ∧ y ≤ 1) ∧
    (presentQ d = [] → norm_review_density_bs d = d.map (fun _ => none)) ∧
    (presentQ d ≠ [] → minQ (presentQ d) = maxQ (presentQ d) →
      norm_review_density_bs d = d.map (fun _ => some 0)) ∧
    (minQ (presentQ d) ≠ maxQ (presentQ d) →
      norm_review_density_bs d = d.map (Option.map (fun x =>
        (x - minQ (presentQ d)) / (maxQ (presentQ d) - minQ (presentQ d))))) ∧
    ((presentQ d).length < 2 → norm_review_density_ms d = d.map (fun _ => some 0)) ∧
    (2 ≤ (presentQ d).length → minQ (presentQ d) = maxQ (presentQ d) →
      norm_review_density_ms d = d.map (fun _ => none)) ∧
    (2 ≤ (presentQ d).length → minQ (presentQ d) ≠ maxQ (presentQ d) →
      norm_review_density_ms d = d.map (Option.map (fun x =>
        (x - minQ (presentQ d)) / (maxQ (presentQ d) - minQ (presentQ d))))) := by
  refine ⟨norm_bs_range d, norm_ms_range d, ?_, ?_, ?_, ?_, ?_, ?_⟩
  · intro h0; simp [norm_review_density_bs, h0]
  · intro h0 heq; simp [norm_review_density_bs, if_neg h0, heq]
  · intro hne
    have h0 : presentQ d ≠ [] := by
      intro h; apply hne; rw [h]; rfl
    simp [norm_review_density_bs, if_neg h0, if_neg hne]
  · intro h0; simp [norm_review_density_ms, h0]
  · intro hlen heq
    have h0 : ¬(presentQ d).length < 2 := by omega
    simp [norm_review_density_ms, if_neg h0, heq]
  · intro hlen hne
    have h0 : ¬(presentQ d).length < 2 := by omega
    simp [norm_review_density_ms, if_neg h0, if_neg hne]

/-- Claim C1, witness for the amended theorem at concrete groups. -/
theorem claim_C1_amended_witness :
    norm_review_density_bs [some 1, none] = [some 0, some 0] ∧
    norm_review_density_ms [some 0, some 2] = [some 0, some 1] := by
  constructor
  · have h := (claim_C1_amended [some 1, none]).2.2.2.1 (by decide) (by decide)
    simpa using h
  · have h := (claim_C1_amended [some 0, some 2]).2.2.2.2.2.2.2 (by decide) (by decide)
    rw [h]
    simp [presentQ, minQ, maxQ]

/-- Claim C10: in a degenerate group the group-wide scalar assignment sets
`norm_review_density` to 0.0 on every row, including rows whose own
`review_density` is missing — best-sellers when a nonempty group has equal
min and max, movers-shakers when fewer than two densities are present — so
the normalized value can be present (0.0) where the density is absent. -/
theorem claim_C10 :
    (∀ d : List (Option ℚ), presentQ d ≠ [] →
      minQ (presentQ d) = maxQ (presentQ d) →
      norm_review_density_bs d = d.map (fun _ => some 0)) ∧
    (∀ d : List (Option ℚ), (presentQ d).length < 2 →
      norm_review_density_ms d = d.map (fun _ => some 0)) ∧
    norm_review_density_bs [some 2, none] = [some 0, some 0] ∧
    norm_review_density_ms [none] = [some 0] := by
  refine ⟨?_, ?_, by decide, by decide⟩
  · intro d h0 heq; simp [norm_review_density_bs, if_neg h0, heq]
  · intro d h0; simp [norm_review_density_ms, h0]

/-- Claim C10, witness at concrete groups. -/
theorem claim_C10_witness :
    norm_review_density_bs [some 3, some 3, none] = [some 0, some 0, some 0] ∧
    norm_review_density_ms [none, some 7] = [some 0, some 0] := by
  constructor
  · have h := claim_C10.1 [some 3, some 3, none] (by decide) (by decide)
    simpa using h
  · have h := claim_C10.2.1 [none, some 7] (by decide)
    simpa using h

/-! ### Claim C2: price segmentation -/

/-- Claim C2: per category group, the code's segmentation equals the
spec-worded row rule — "unknown" exactly when the row's own `price_norm` is
missing or the group has no present price (the group-empty case implies the
row's own price is missing, so the code's group-level guard and the row
rule agree); otherwise Low when at or below the 25th linear-interpolation
percentile of the group's present prices, Mid when at or below the 75th,
else High. -/
theorem claim_C2 (prices : List (Option ℚ)) :
    segPriceGroup prices = prices.map (segRowSpec prices) ∧
    (∀ x : Option ℚ, segRowSpec prices x = "unknown" ↔
      x = none ∨ presentQ prices = []) := by
  constructor
  · by_cases h0 : presentQ prices = []
    · unfold segPriceGroup
      rw [if_pos h0]
      have hf : (fun _ : Option ℚ => "unknown") = segRowSpec prices := by
        funext x
        cases x with
        | none => rfl
        | some v => simp [segRowSpec, h0]
      rw [hf]
    · have hf : segClassify (quantileLin (presentQ prices) (1 / 4))
          (quantileLin (presentQ prices) (3 / 4)) = segRowSpec prices := by
        funext x
        cases x with
        | none => rfl
        | some v => simp [segClassify, segRowSpec, h0]
      have hg : segPriceGroup prices =
          prices.map (segClassify (quantileLin (presentQ prices) (1 / 4))
            (quantileLin (presentQ prices) (3 / 4))) := by
        unfold segPriceGroup
        rw [if_neg h0]
      rw [hg, hf]
  · intro x
    cases x with
    | none => simp [segRowSpec]
    | some v =>
      simp only [segRowSpec]
      by_cases h0 : presentQ prices = []
      · simp [h0]
      · rw [if_neg h0]
        constructor
        · intro h
          exfalso
          split_ifs at h <;> exact absurd h (by decide)
        · rintro (h | h)
          · exact Option.noConfusion h
          · exact absurd h h0

/-! ### Claim C4: movers-shakers rank delta and direction -/

/-- Claim C4: `sales_rank_change` is `was - now` when both are present and
missing otherwise; `sales_rank_change_abs` is its absolute value with
missing propagating; `move_direction` is "up" exactly on positive change,
"down" exactly on negative, "no_change" exactly on zero, and missing
exactly when the change is missing. -/
theorem claim_C4 :
    (∀ w n : ℚ, sales_rank_change (some w) (some n) = some (w - n)) ∧
    (∀ w n : Option ℚ, w = none ∨ n = none → sales_rank_change w n = none) ∧
    sales_rank_change_abs none = none ∧
    (∀ x : ℚ, sales_rank_change_abs (some x) = some |x|) ∧
    (∀ c : Option ℚ, move_direction c = none ↔ c = none) ∧
    (∀ c : Option ℚ, move_direction c = some "up" ↔ ∃ x, c = some x ∧ 0 < x) ∧
    (∀ c : Option ℚ, move_direction c = some "down" ↔ ∃ x, c = some x ∧ x < 0) ∧
    (∀ c : Option ℚ, move_direction c = some "no_change" ↔ c = some 0) := by
  refine ⟨fun w n => rfl, ?_, rfl, fun x => rfl, ?_, ?_, ?_, ?_⟩
  · rintro w n (rfl | rfl)
    · cases n <;> rfl
    · cases w <;> rfl
  · intro c
    cases c with
    | none => simp [move_direction]
    | some x =>
      simp only [move_direction]
      split_ifs <;> simp
  · intro c
    cases c with
    | none => simp [move_direction]
    | some x =>
      simp only [move_direction]
      constructor
      · intro h
        split_ifs at h with h1 h2
        · exact ⟨x, rfl, h1⟩
        · injection h with h; exact absurd h (by decide)
        · injection h with h; exact absurd h (by decide)
      · rintro ⟨y, hy, hpos⟩
        injection hy with hy
        subst hy
        rw [if_pos hpos]
  · intro c
    cases c with
    | none => simp [move_direction]
    | some x =>
      simp only [move_direction]
      constructor
      · intro h
        split_ifs at h with h1 h2
        · injection h with h; exact absurd h (by decide)
        · exact ⟨x, rfl, h2⟩
        · injection h with h; exact absurd h (by decide)
      · rintro ⟨y, hy, hneg⟩
        injection hy with hy
        subst hy
        rw [if_neg (by linarith), if_pos hneg]
  · intro c
    cases c with
    | none => simp [move_direction]
    | some x =>
      simp only [move_direction]
      constructor
      · intro h
        split_ifs at h with h1 h2
        · injection h with h; exact absurd h (by decide)
        · injection h with h; exact absurd h (by decide)
        · have hx : x = 0 := le_antisymm (not_lt.mp h1) (not_lt.mp h2)
          rw [hx]
      · intro h
        injection h with h
        subst h
        rw [if_neg (lt_irrefl 0), if_neg (lt_irrefl 0)]

/-- Claim C4, witness at concrete changes. -/
theorem claim_C4_witness :
    sales_rank_change none (some 1) = none ∧
    move_direction (some 3) = some "up" :=
  ⟨claim_C4.2.1 none (some 1) (Or.inl rfl),
   (claim_C4.2.2.2.2.2.1 (some 3)).mpr ⟨3, rfl, by norm_num⟩⟩

/-! ### Claim C3: the two price parsers -/

/-- Claim C3, counterexample.  The claim says both variants extract the
last numeric token of the cleaned string.  On "1.2.3" the cleaned string
has tokens "1.2" and "3", so last-token extraction gives 3.0 — the
movers-shakers parser does return 3.0, but the best-sellers parser feeds
the whole cleaned string to `float` and returns missing. -/
theorem claim_C3_counterexample :
    parse_price_bs "1.2.3" = none ∧ parse_price_ms "1.2.3" = some 3 := by
  constructor
  · decide
  · have h : parse_price_ms "1.2.3" = some ((digitsToNat ['3'] : ℚ)) := rfl
    have h2 : digitsToNat ['3'] = 3 := rfl
    rw [h, h2]
    norm_num

/-- Claim C3, amended: only the movers-shakers parser extracts the last
numeric token of the cleaned string (missing when there is none); the
best-sellers parser strips parentheticals, keeps only `0-9 . , -`, removes
commas, and converts the entire remainder as a single float literal,
returning missing when it is not one (e.g. "1.2.3").  Both variants agree
on the spec's examples: "$1,234.56" parses to 1234.56 and
"$9.00 (converted)" to 9.0 in both, and "19.99" to 19.99 in both. -/
theorem claim_C3_amended :
    parse_price_bs "$1,234.56" = some (123456 / 100 : ℚ) ∧
    parse_price_ms "$1,234.56" = some (123456 / 100 : ℚ) ∧
    parse_price_bs "$9.00 (converted)" = some 9 ∧
    parse_price_ms "$9.00 (converted)" = some 9 ∧
    parse_price_bs "19.99" = some (1999 / 100 : ℚ) ∧
    parse_price_ms "19.99" = some (1999 / 100 : ℚ) ∧
    parse_price_ms "1.2.3" = some 3 ∧
    parse_price_bs "1.2.3" = none := by
  have d1 : digitsToNat ['1', '2', '3', '4'] = 1234 := rfl
  have d2 : digitsToNat ['5', '6'] = 56 := rfl
  have d3 : digitsToNat ['9'] = 9 := rfl
  have d4 : digitsToNat ['0', '0'] = 0 := rfl
  have d5 : digitsToNat ['1', '9'] = 19 := rfl
  have d6 : digitsToNat ['9', '9'] = 99 := rfl
  have d7 : digitsToNat ['3'] = 3 := rfl
  refine ⟨?_, ?_, ?_, ?_, ?_, ?_, ?_, by decide⟩
  · have h : parse_price_bs "$1,234.56" =
        some ((digitsToNat ['1', '2', '3', '4'] : ℚ) +
          (digitsToNat ['5', '6'] : ℚ) / (10 : ℚ) ^ (['5', '6'] : List Char).length) := rfl
    rw [h, d1, d2]
    norm_num
  · have h : parse_price_ms "$1,234.56" =
        some ((digitsToNat ['1', '2', '3', '4'] : ℚ) +
          (digitsToNat ['5', '6'] : ℚ) / (10 : ℚ) ^ (['5', '6'] : List Char).length) := rfl
    rw [h, d1, d2]
    norm_num
  · have h : parse_price_bs "$9.00 (converted)" =
        some ((digitsToNat ['9'] : ℚ) +
          (digitsToNat ['0', '0'] : ℚ) / (10 : ℚ) ^ (['0', '0'] : List Char).length) := rfl
    rw [h, d3, d4]
    norm_num
  · have h : parse_price_ms "$9.00 (converted)" =
        some ((digitsToNat ['9'] : ℚ) +
          (digitsToNat ['0', '0'] : ℚ) / (10 : ℚ) ^ (['0', '0'] : List Char).length) := rfl
    rw [h, d3, d4]
    norm_num
  · have h : parse_price_bs "19.99" =
        some ((digitsToNat ['1', '9'] : ℚ) +
          (digitsToNat ['9', '9'] : ℚ) / (10 : ℚ) ^ (['9', '9'] : List Char).length) := rfl
    rw [h, d5, d6]
    norm_num
  · have h : parse_price_ms "19.99" =
        some ((digitsToNat ['1', '9'] : ℚ) +
          (digitsToNat ['9', '9'] : ℚ) / (10 : ℚ) ^ (['9', '9'] : List Char).length) := rfl
    rw [h, d5, d6]
    norm_num
  · have h : parse_price_ms "1.2.3" = some ((digitsToNat ['3'] : ℚ)) := rfl
    rw [h, d7]
    norm_num

/-! ### Claim C7: category decomposer on non-string or blank input -/

theorem trimChars_eq_nil {l : List Char} (h : ∀ c ∈ l, c.isWhitespace = true) :
    trimChars l = [] := by
  unfold trimChars
  have h1 : l.dropWhile Char.isWhitespace = [] := by
    rw [List.dropWhile_eq_nil_iff]
    exact h
  rw [h1]
  rfl

theorem afterInMarker_ws :
    ∀ l : List Char, (∀ c ∈ l, c.isWhitespace = true) → afterInMarker l = none
  | [], _ => rfl
  | [_], _ => rfl
  | [_, _], _ => rfl
  | c1 :: c2 :: c3 :: rest, h => by
    have h1 : c1.isWhitespace = true := h c1 (by simp)
    rw [afterInMarker]
    rw [if_neg]
    · exact afterInMarker_ws (c2 :: c3 :: rest) (fun c hc => h c (by simp at hc ⊢; tauto))
    · rintro ⟨hc, -, -⟩
      rcases hc with rfl | rfl
      · exact absurd h1 (by decide)
      · exact absurd h1 (by decide)

/-- Claim C7, counterexample.  The claim says non-string or blank category
input yields all three fields missing in both variants; in the best-sellers
variant a blank string is not guarded, so `category_full` comes back as the
(empty) stripped string, present, with only the two levels missing. -/
theorem claim_C7_counterexample :
    parse_category_levels_bs (some " ") = ⟨some "", none, none⟩ ∧
    parse_category_levels_bs (some " ") ≠ ⟨none, none, none⟩ := by
  constructor <;> decide

/-- Claim C7, amended: in the movers-shakers variant, non-string or blank
input yields all three fields missing; in the best-sellers variant a
non-string input yields all three missing, but a blank (empty or
whitespace-only) string yields `category_full` present as the empty string
with both levels missing. -/
theorem claim_C7_amended :
    parse_category_levels_ms none = ⟨none, none, none⟩ ∧
    (∀ s : String, (∀ c ∈ s.toList, c.isWhitespace = true) →
      parse_category_levels_ms (some s) = ⟨none, none, none⟩) ∧
    parse_category_levels_bs none = ⟨none, none, none⟩ ∧
    (∀ s : String, (∀ c ∈ s.toList, c.isWhitespace = true) →
      parse_category_levels_bs (some s) = ⟨some "", none, none⟩) := by
  refine ⟨rfl, ?_, rfl, ?_⟩
  · intro s hws
    have hT : trimChars s.data = [] := trimChars_eq_nil hws
    simp [parse_category_levels_ms, hT]
  · intro s hws
    have hA : afterInMarker s.toList = none := afterInMarker_ws _ hws
    have hT : trimChars s.toList = [] := trimChars_eq_nil hws
    simp only [parse_category_levels_bs]
    rw [hA, hT]
    rfl

/-- Claim C7, witness for the amended theorem at concrete blank inputs. -/
theorem claim_C7_amended_witness :
    parse_category_levels_ms (some " ") = ⟨none, none, none⟩ ∧
    parse_category_levels_bs (some "  ") = ⟨some "", none, none⟩ :=
  ⟨claim_C7_amended.2.1 " " (by decide), claim_C7_amended.2.2.2 "  " (by decide)⟩

/-! ### Claim C8: the two integer parsers -/

/-- Claim C8, counterexample.  The claim says both variants strip all
non-digit characters before parsing; the best-sellers variant removes only
commas and surrounding whitespace, so "$5" fails `int()` and is missing
there while the movers-shakers variant returns 5. -/
theorem claim_C8_counterexample :
    parse_int_bs "$5" = none ∧ parse_int_ms "$5" = some 5 := by
  constructor <;> decide

/-- Claim C8, amended: the movers-shakers parser strips all non-digits and
parses the remainder, so any input containing a digit parses to the
non-negative number its digits form, and digit-free or blank input is
missing; the best-sellers parser removes only commas and surrounding
whitespace and applies Python `int` literal semantics (a sign is allowed,
so the result can be negative), returning missing on failure. -/
theorem claim_C8_amended :
    (∀ s : String, ∀ n : ℤ, parse_int_ms s = some n → 0 ≤ n) ∧
    (∀ s : String, s.toList.filter Char.isDigit = [] → parse_int_ms s = none) ∧
    parse_int_bs "$5" = none ∧
    parse_int_bs "1,234" = some 1234 ∧
    parse_int_ms "$ 5,4x" = some 54 ∧
    parse_int_bs "-5" = some (-5) ∧
    parse_int_ms "-5" = some 5 := by
  refine ⟨?_, ?_, by decide, by decide, by decide, by decide, by decide⟩
  · intro s n h
    simp only [parse_int_ms] at h
    by_cases h1 : trimChars s.toList = []
    · rw [if_pos h1] at h; cases h
    · rw [if_neg h1] at h
      by_cases h2 : s.toList.filter Char.isDigit = []
      · rw [if_pos h2] at h; cases h
      · rw [if_neg h2] at h
        injection h with h
        rw [← h]
        exact Int.natCast_nonneg _
  · intro s h2
    simp only [parse_int_ms]
    by_cases h1 : trimChars s.toList = []
    · rw [if_pos h1]
    · rw [if_neg h1, if_pos h2]

/-- Claim C8, witness for the amended theorem at concrete inputs. -/
theorem claim_C8_amended_witness :
    (0 : ℤ) ≤ 12 ∧ parse_int_ms "abc" = none :=
  ⟨claim_C8_amended.1 " 12x" 12 (by decide), claim_C8_amended.2.1 "abc" (by decide)⟩

/-! ### Claims C6 and C9: orchestrator column handling -/

/-- Claim C6: the claim says an absent recognized column is treated as a
missing field and the transform completes.  In the code, an absent column
makes `df.get` return the scalar default (`None` for `rank`, `""`
elsewhere), and calling `.apply` on that scalar raises `AttributeError`
immediately: here a best-sellers input with no price-matching header
aborts at the `price_raw` step.  With every recognized header present the
transform completes with the full projection, and the projection does
silently omit absent optional columns (here `page` and `title`, the only
recognized columns the best-sellers transform never touches). -/
theorem claim_C6_code_behavior :
    bsTransformCols ["rank", "link", "category", "rating", "review"] =
      .error "AttributeError" ∧
    bsTransformCols
      ["rank", "page", "category", "title", "link", "rating", "review", "price"] =
      .ok bsKeep ∧
    bsTransformCols ["rank", "category", "link", "rating", "review", "price"] =
      .ok ["rank", "category", "category_full", "cat_level_1", "cat_level_2",
           "asin", "link", "rating", "review_count", "price_raw", "price_norm",
           "price_segment", "review_density", "norm_review_density", "scraped_at"] := by
  refine ⟨rfl, rfl, rfl⟩

/-- Claim C9, counterexample.  The claim says that when two headers match
the same canonical rule the later one wins by dictionary overwrite and the
pipeline tolerates the ambiguity without error.  The mapping dictionary is
keyed by the original header names, so nothing is overwritten: `rename`
produces two columns with the same canonical name, and the transform then
raises (`parse_price` receives a column `Series` of the two-column frame
and evaluates `pd.isna(series)` in a boolean context). -/
theorem claim_C9_counterexample :
    renameBS "price" = "price_raw" ∧
    renameBS "price usd" = "price_raw" ∧
    bsTransformCols ["rank", "link", "category", "rating", "review",
      "price", "price usd"] = .error "ValueError" := by
  refine ⟨rfl, rfl, rfl⟩

theorem mem_of_countCol_pos {l : List String} {n : String}
    (h : 0 < countCol l n) : n ∈ l := by
  by_contra hn
  have hf : l.filter (fun c => c = n) = [] := by
    rw [List.filter_eq_nil_iff]
    intro a ha
    simp only [decide_eq_true_eq]
    rintro rfl
    exact hn ha
  rw [countCol, hf] at h
  cases h

theorem addCol_mem {l : List String} {n : String} (h : n ∈ l) : addCol l n = l := by
  unfold addCol
  rw [if_pos h]

theorem getApplyStep_one {cols : List String} {src dst : String}
    (h : countCol cols src = 1) :
    getApplyStep cols src dst = .ok (addCol cols dst) := by
  unfold getApplyStep
  rw [h]

theorem getApplyStep_many {cols : List String} {src dst : String}
    (h : 2 ≤ countCol cols src) :
    getApplyStep cols src dst = .error "ValueError" := by
  unfold getApplyStep
  obtain ⟨k, hk⟩ : ∃ k, countCol cols src = k + 2 := ⟨countCol cols src - 2, by omega⟩
  rw [hk]
  rfl

theorem countCol_addCol_ne (l : List String) (m n : String) (h : m ≠ n) :
    countCol (addCol l m) n = countCol l n := by
  unfold addCol
  split_ifs with hm
  · rfl
  · unfold countCol
    rw [List.filter_append]
    have : ([m].filter (fun c => c = n)) = [] := by
      simp [List.filter, h]
    rw [this, List.append_nil]

theorem exceptOk_bind (a : List String) (f : List String → Except String (List String)) :
    (Except.ok a : Except String (List String)) >>= f = f a := rfl

theorem exceptError_bind (e : String) (f : List String → Except String (List String)) :
    (Except.error e : Except String (List String)) >>= f = .error e := rfl

/-- Claim C9, amended: when two (stripped) headers are renamed onto the
same canonical column — here `price_raw` — no overwrite takes place, the
canonical column is duplicated, and the best-sellers transform raises
(`ValueError`) at the corresponding parser step instead of completing with
the later header's values, provided the earlier `rank` and `link` steps saw
unambiguous columns. -/
theorem claim_C9_amended (headers : List String)
    (h1 : countCol (headers.map fun h => renameBS (String.mk (trimChars h.toList))) "rank" = 1)
    (h2 : countCol (headers.map fun h => renameBS (String.mk (trimChars h.toList))) "link" = 1)
    (h3 : 2 ≤ countCol (headers.map fun h => renameBS (String.mk (trimChars h.toList))) "price_raw") :
    bsTransformCols headers = .error "ValueError" := by
  have hrank : getApplyStep
      (headers.map fun h => renameBS (String.mk (trimChars h.toList))) "rank" "rank" =
      .ok (headers.map fun h => renameBS (String.mk (trimChars h.toList))) := by
    have hm : "rank" ∈ headers.map fun h => renameBS (String.mk (trimChars h.toList)) :=
      mem_of_countCol_pos (by omega)
    rw [getApplyStep_one h1, addCol_mem hm]
  have hlink : getApplyStep
      (headers.map fun h => renameBS (String.mk (trimChars h.toList))) "link" "asin" =
      .ok (addCol (headers.map fun h => renameBS (String.mk (trimChars h.toList))) "asin") :=
    getApplyStep_one h2
  have hprice : getApplyStep
      (addCol (headers.map fun h => renameBS (String.mk (trimChars h.toList))) "asin")
      "price_raw" "price_norm" = .error "ValueError" := by
    apply getApplyStep_many
    rw [countCol_addCol_ne _ _ _ (by decide)]
    exact h3
  simp only [bsTransformCols, hrank, exceptOk_bind, hlink, hprice, exceptError_bind]

/-- Claim C9, witness for the amended theorem at concrete headers. -/
theorem claim_C9_amended_witness :
    bsTransformCols ["rank", "link", "category", "rating", "review",
      "price a", "price b"] = .error "ValueError" :=
  claim_C9_amended _ (by decide) (by decide) (by decide)

/-! ### Claim C5: identifier extractor -/

theorem takeClass_head_false {cls : Char → Bool} {d : Char} {t : List Char} (n : ℕ)
    (h : cls d = false) : takeClass cls (n + 1) (d :: t) = none := by
  simp [takeClass, h]

theorem takeClass_sound (cls : Char → Bool) :
    ∀ (n : ℕ) (l r : List Char), takeClass cls n l = some r →
      r.length = n ∧ ∀ c ∈ r, cls c = true := by
  intro n
  induction n with
  | zero =>
    intro l r h
    simp only [takeClass] at h
    injection h with h
    subst h
    exact ⟨rfl, by intro c hc; cases hc⟩
  | succ m ih =>
    intro l r h
    cases l with
    | nil => exact absurd h (by simp [takeClass])
    | cons c rest =>
      simp only [takeClass] at h
      by_cases hc : cls c = true
      · rw [if_pos hc] at h
        cases hm : takeClass cls m rest with
        | none => rw [hm] at h; cases h
        | some r2 =>
          rw [hm] at h
          injection h with h
          subst h
          obtain ⟨hlen, hcls⟩ := ih rest r2 hm
          refine ⟨by simp [hlen], ?_⟩
          intro x hx
          rcases List.mem_cons.mp hx with rfl | hx
          · exact hc
          · exact hcls x hx
      · rw [if_neg hc] at h; cases h

theorem takeClass_exact (cls : Char → Bool) :
    ∀ (id suf : List Char), (∀ c ∈ id, cls c = true) →
      takeClass cls id.length (id ++ suf) = some id := by
  intro id
  induction id with
  | nil => intro suf _; rfl
  | cons c rest ih =>
    intro suf h
    have hc : cls c = true := h c (by simp)
    simp only [List.length_cons, List.cons_append, List.append_eq, takeClass, hc, if_true]
    rw [ih suf (fun x hx => h x (by simp [hx]))]
    rfl

theorem startsWithL_self_append : ∀ (l t : List Char), startsWithL l (l ++ t) = true := by
  intro l t
  induction l with
  | nil => rfl
  | cons c rest ih => simp [startsWithL, ih]

theorem startsWithL_of_append_le :
    ∀ (pat a b : List Char), startsWithL pat (a ++ b) = true →
      pat.length ≤ a.length → startsWithL pat a = true := by
  intro pat
  induction pat with
  | nil => intro a b _ _; rfl
  | cons p ps ih =>
    intro a b h hlen
    cases a with
    | nil => simp at hlen
    | cons x xs =>
      simp only [List.cons_append, startsWithL, Bool.and_eq_true] at h ⊢
      exact ⟨h.1, ih xs b h.2 (by simpa using hlen)⟩

theorem drop_append_ge : ∀ (a b : List Char) (n : ℕ), a.length ≤ n →
    (a ++ b).drop n = b.drop (n - a.length) := by
  intro a
  induction a with
  | nil => intro b n _; simp
  | cons x xs ih =>
    intro b n h
    cases n with
    | zero => simp at h
    | succ m =>
      simp only [List.cons_append, List.drop_succ_cons, List.length_cons]
      rw [ih b m (by simpa using h)]
      congr 1
      omega

theorem reSearchCap_sound (lit : List Char) (cls : Char → Bool) (n : ℕ) :
    ∀ (l r : List Char), reSearchCap lit cls n l = some r →
      r.length = n ∧ ∀ c ∈ r, cls c = true := by
  intro l
  induction l with
  | nil => intro r h; cases h
  | cons c rest ih =>
    intro r h
    simp only [reSearchCap] at h
    by_cases hs : startsWithL lit (c :: rest) = true
    · rw [if_pos hs] at h
      cases ht : takeClass cls n ((c :: rest).drop lit.length) with
      | none => rw [ht] at h; exact ih r h
      | some r2 =>
        rw [ht] at h
        injection h with h
        subst h
        exact takeClass_sound cls n _ r2 ht
    · rw [if_neg hs] at h
      exact ih r h

theorem reSearchCap_embed (lit : List Char) (cls : Char → Bool) (id suf : List Char)
    (hlit : lit ≠ []) (htail : ∀ c ∈ lit.drop 1, cls c = false)
    (hn : 0 < id.length) (hcls : ∀ c ∈ id, cls c = true) :
    ∀ pre : List Char, occursInL lit pre = false →
      reSearchCap lit cls id.length (pre ++ (lit ++ (id ++ suf))) = some id := by
  obtain ⟨c0, lt, rfl⟩ := List.exists_cons_of_ne_nil hlit
  intro pre
  induction pre with
  | nil =>
    intro _
    simp only [List.nil_append, List.cons_append, List.append_eq, reSearchCap]
    have hs : startsWithL (c0 :: lt) (c0 :: (lt ++ (id ++ suf))) = true :=
      startsWithL_self_append (c0 :: lt) (id ++ suf)
    rw [if_pos hs]
    have hdrop : (c0 :: (lt ++ (id ++ suf))).drop (c0 :: lt).length = id ++ suf :=
      List.drop_left (c0 :: lt) (id ++ suf)
    rw [hdrop, takeClass_exact cls id suf hcls]
  | cons c pre' ih =>
    intro hocc
    simp only [occursInL, Bool.or_eq_false_iff] at hocc
    obtain ⟨hsf, hof⟩ := hocc
    simp only [List.cons_append, List.append_eq, reSearchCap]
    by_cases hs : startsWithL (c0 :: lt) (c :: (pre' ++ (c0 :: (lt ++ (id ++ suf))))) = true
    · rw [if_pos hs]
      have hlt : (c :: pre').length < (c0 :: lt).length := by
        by_contra hge
        push_neg at hge
        have hsw : startsWithL (c0 :: lt) (c :: pre') = true :=
          startsWithL_of_append_le (c0 :: lt) (c :: pre') ((c0 :: lt) ++ (id ++ suf)) hs hge
        exact absurd hsw (by rw [hsf]; simp)
      have hdrop : (c :: (pre' ++ (c0 :: (lt ++ (id ++ suf))))).drop (c0 :: lt).length =
          lt.drop ((c0 :: lt).length - (c :: pre').length - 1) ++ (id ++ suf) := by
        have h1 : c :: (pre' ++ (c0 :: (lt ++ (id ++ suf)))) =
            (c :: pre') ++ ((c0 :: lt) ++ (id ++ suf)) := by simp
        rw [h1, drop_append_ge _ _ _ (le_of_lt hlt)]
        have hk : (c0 :: lt).length - (c :: pre').length ≤ (c0 :: lt).length := by omega
        rw [List.drop_append_of_le_length hk]
        congr 1
        obtain ⟨k, hk2⟩ : ∃ k, (c0 :: lt).length - (c :: pre').length = k + 1 :=
          ⟨(c0 :: lt).length - (c :: pre').length - 1, by simp at hlt ⊢; omega⟩
        rw [hk2]
        simp only [List.drop_succ_cons, Nat.add_sub_cancel]
      rw [hdrop]
      cases hdk : lt.drop ((c0 :: lt).length - (c :: pre').length - 1) with
      | nil =>
        exfalso
        have hle := List.drop_eq_nil_iff.mp hdk
        simp only [List.length_cons] at hlt hle
        omega
      | cons d dd =>
        have hd : d ∈ lt := by
          have hmem : d ∈ lt.drop ((c0 :: lt).length - (c :: pre').length - 1) := by
            rw [hdk]; simp
          exact List.drop_subset _ lt hmem
        have hdf : cls d = false := htail d (by simpa using hd)
        obtain ⟨n', hn'⟩ : ∃ n', id.length = n' + 1 := ⟨id.length - 1, by omega⟩
        rw [hn', List.cons_append, takeClass_head_false n' hdf]
        have h := ih hof
        rw [hn'] at h
        exact h
    · rw [if_neg hs]
      exact ih hof

/-- Claim C5: for a link embedding a valid 10-character uppercase
alphanumeric identifier after `/dp/` (the first such marker in the link) the
extractor returns exactly that identifier; the same holds for
`/gp/product/` when the `/dp/` pattern matches nowhere in the link (the
`/dp/` pattern is tried first); and any non-missing result is exactly 10
uppercase alphanumeric characters. -/
theorem claim_C5 :
    (∀ pre id suf : List Char, id.length = 10 →
      (∀ c ∈ id, isUpperAlnum c = true) →
      occursInL "/dp/".toList pre = false →
      extract_asin (String.mk (pre ++ ("/dp/".toList ++ (id ++ suf)))) =
        some (String.mk id)) ∧
    (∀ pre id suf : List Char, id.length = 10 →
      (∀ c ∈ id, isUpperAlnum c = true) →
      occursInL "/gp/product/".toList pre = false →
      reSearchCap "/dp/".toList isUpperAlnum 10
        (pre ++ ("/gp/product/".toList ++ (id ++ suf))) = none →
      extract_asin (String.mk (pre ++ ("/gp/product/".toList ++ (id ++ suf)))) =
        some (String.mk id)) ∧
    (∀ (link r : String), extract_asin link = some r →
      r.length = 10 ∧ ∀ c ∈ r.toList, isUpperAlnum c = true) := by
  refine ⟨?_, ?_, ?_⟩
  · intro pre id suf hlen hcls hpre
    have h := reSearchCap_embed "/dp/".toList isUpperAlnum id suf (by decide)
      (by decide) (by omega) hcls pre hpre
    rw [hlen] at h
    unfold extract_asin
    have hS : (String.mk (pre ++ ("/dp/".toList ++ (id ++ suf)))).toList =
        pre ++ ("/dp/".toList ++ (id ++ suf)) := rfl
    rw [hS, h]
  · intro pre id suf hlen hcls hpre hdp
    have h := reSearchCap_embed "/gp/product/".toList isUpperAlnum id suf (by decide)
      (by decide) (by omega) hcls pre hpre
    rw [hlen] at h
    unfold extract_asin
    have hS : (String.mk (pre ++ ("/gp/product/".toList ++ (id ++ suf)))).toList =
        pre ++ ("/gp/product/".toList ++ (id ++ suf)) := rfl
    rw [hS, hdp, h]
    rfl
  · intro link r h
    unfold extract_asin at h
    cases hdp : reSearchCap "/dp/".toList isUpperAlnum 10 link.toList with
    | some r2 =>
      rw [hdp] at h
      injection h with h
      obtain ⟨hlen, hcls⟩ := reSearchCap_sound _ _ _ _ _ hdp
      subst h
      exact ⟨hlen, fun c hc => hcls c hc⟩
    | none =>
      rw [hdp] at h
      cases hgp : reSearchCap "/gp/product/".toList isUpperAlnum 10 link.toList with
      | some r2 =>
        rw [hgp] at h
        injection h with h
        obtain ⟨hlen, hcls⟩ := reSearchCap_sound _ _ _ _ _ hgp
        subst h
        exact ⟨hlen, fun c hc => hcls c hc⟩
      | none =>
        rw [hgp] at h
        cases h

/-- Claim C5, witness at concrete links for both URL shapes. -/
theorem claim_C5_witness :
    extract_asin (String.mk ("https://a.b/x".toList ++ ("/dp/".toList ++
      ("B0C1D2E3F4".toList ++ "/ref=x".toList)))) =
      some (String.mk "B0C1D2E3F4".toList) ∧
    extract_asin (String.mk ("https://y".toList ++ ("/gp/product/".toList ++
      ("A1B2C3D4E5".toList ++ "?q=1".toList)))) =
      some (String.mk "A1B2C3D4E5".toList) :=
  ⟨claim_C5.1 _ _ _ (by decide) (by decide) (by decide),
   claim_C5.2.1 _ _ _ (by decide) (by decide) (by decide) (by decide)⟩
